import Mathlib

/-!
Verification model of the serve-splitting pipeline (`scripts/split_serves.py`,
`scripts/landing_frame.py`, `scripts/time_to_frame.py`).

The filesystem is modelled as the list of file names present in the output
directory, and the ledger (`data/metadata/serves.csv`) as the list of its data
rows (the constant header row is kept implicit).  Python integers are `Nat`
(or `Int` for process exit codes), and the decimal rendering done by `str()` /
`f"{n:03d}"` is modelled explicitly below.
-/

/-- Decimal digit `d` as a character (`chr(48 + d)`). -/
def digitChar (d : Nat) : Char := Char.ofNat (48 + d)

/-- Little-endian decimal digits of `n`, with explicit fuel so the definition
is structural (fuel `n` is always enough). -/
def digitsAux : Nat → Nat → List Nat
  | 0, _ => []
  | fuel + 1, n => if n = 0 then [] else n % 10 :: digitsAux fuel (n / 10)

/-- The characters of Python `str(n)` for a nonnegative integer `n`. -/
def natChars (n : Nat) : List Char :=
  if n = 0 then ['0'] else (digitsAux n n).reverse.map digitChar

/-- Python `str(n)` for `n : Nat`. -/
def renderNat (n : Nat) : String := ⟨natChars n⟩

/-- Python `f"{n:03d}"`: the decimal rendering of `n`, left-padded with
zeros to a minimum width of 3. -/
def format03 (n : Nat) : String :=
  ⟨List.replicate (3 - (natChars n).length) '0' ++ natChars n⟩

/-- Python `int(s)` on a string of decimal digits (`None` when `s` is not a
nonempty all-digit string). -/
def parseNat (s : String) : Option Nat :=
  if !s.data.isEmpty && s.data.all Char.isDigit then
    some (s.data.foldl (fun a c => 10 * a + (c.toNat - 48)) 0)
  else none

/-- One data row of `serves.csv`, in header order
`player, serve_id, session_id, source_video, output_clip, start_frame,
end_frame, landing_frame`.  All fields are the strings stored in the file. -/
structure Row where
  player : String
  serve_id : String
  session_id : String
  source_video : String
  output_clip : String
  start_frame : String
  end_frame : String
  landing_frame : String
deriving DecidableEq

/-- The regex `serve_(\d{3})\.mp4$` applied with `match` to a file name: the
name is the literal prefix `serve_`, then exactly three digit characters,
then the literal `.mp4` at the end of the string (so 13 characters in all);
on a match, `int(m.group(1))` is the decimal value of the three digits. -/
def parse_serve (s : String) : Option Nat :=
  if s.data.take 6 == "serve_".data
      && s.data.length == 13
      && s.data.drop 9 == ".mp4".data
      && ((s.data.drop 6).take 3).all Char.isDigit then
    some (((s.data.drop 6).take 3).foldl (fun a c => 10 * a + (c.toNat - 48)) 0)
  else none

/-- The glob pattern `serve_*.mp4` applied to a file name. -/
def glob_serve (s : String) : Bool :=
  s.data.take 6 == "serve_".data
    && 10 ≤ s.data.length
    && s.data.drop (s.data.length - 4) == ".mp4".data

/-- `_next_serve_id`: scan the directory listing for files matching the glob
`serve_*.mp4`, take the maximum id parsed by the regex (ignoring
non-matching names), and return it plus one.  (The source's
`except ValueError` branch is unreachable, since the regex group is always
three digits.) -/
def next_serve_id (files : List String) : Nat :=
  (files.filter glob_serve).foldl
    (fun maxId p =>
      match parse_serve p with
      | some i => max maxId i
      | none => maxId) 0
    + 1

/-- `_append_to_csv`: append one data row to `serves.csv`, with `serve_id`
rendered as `f"{serve_id:03d}"`, the frame numbers and the session id via
`str()`, and an empty `landing_frame`.  (The header row written on first
creation is constant and kept implicit in the row-list model.) -/
def append_to_csv (csv : List Row) (player : String) (serveId : Nat)
    (videoPath outFile : String) (startFrame endFrame : Nat)
    (sessionId : Nat) : List Row :=
  csv ++ [⟨player, format03 serveId, renderNat sessionId, videoPath, outFile,
           renderNat startFrame, renderNat endFrame, ""⟩]

/-- `_remove_from_csv`: rewrite `serves.csv` keeping every row that does not
match the `(player, f"{serve_id:03d}", out_file)` key on columns 0, 1 and 4. -/
def remove_from_csv (player : String) (serveId : Nat) (outFile : String)
    (csv : List Row) : List Row :=
  csv.filter (fun row =>
    !(row.player == player && row.serve_id == format03 serveId
      && row.output_clip == outFile))

/-- The body of `_delete_last_clip`'s scan: track the largest id parsed so
far and the path achieving it (`if clip_id > last_id`). -/
def scanStep (acc : Nat × Option String) (path : String) : Nat × Option String :=
  match parse_serve path with
  | none => acc
  | some id => if acc.1 < id then (id, some path) else acc

/-- `_delete_last_clip`: glob `serve_*.mp4`, return `(False, None, None)` on
an empty listing; otherwise scan for the largest parsed id, and when a path
was found and still exists, remove the file and its csv row and return
`(True, last_id, last_path)`.  Returns the status triple together with the
directory listing and the csv after the call. -/
def delete_last_clip (files : List String) (player : String) (csv : List Row) :
    (Bool × Option Nat × Option String) × List String × List Row :=
  let existing := files.filter glob_serve
  if existing.isEmpty then ((false, none, none), files, csv)
  else
    let scanned := existing.foldl scanStep (0, none)
    match scanned.2 with
    | some p =>
      if p ≠ "" && p ∈ files then
        ((true, some scanned.1, some p), files.erase p,
          remove_from_csv player scanned.1 p csv)
      else ((false, none, none), files, csv)
    | none => ((false, none, none), files, csv)

/-- One background encoding job, as stored in `active_jobs`.  `procStatus`
models `proc.poll()`: `none` while the process is still running, `some ret`
once it has exited with status `ret`.  `launchedAt` models the wall-clock
launch timestamp (only used for the elapsed-time report). -/
structure Job where
  procStatus : Option Int
  player : String
  serveId : Nat
  sessionId : Nat
  videoPath : String
  outFile : String
  startFrame : Nat
  endFrame : Nat
  launchedAt : Nat
deriving DecidableEq

/-- The row `_append_to_csv` writes for a finished job. -/
def rowOfJob (j : Job) : Row :=
  ⟨j.player, format03 j.serveId, renderNat j.sessionId, j.videoPath,
    j.outFile, renderNat j.startFrame, renderNat j.endFrame, ""⟩

/-- A harvested job counts as a success when its exit status is zero and its
output file exists on disk. -/
def jobSuccess (fs : List String) (j : Job) : Bool :=
  match j.procStatus with
  | none => false
  | some ret => ret == 0 && fs.contains j.outFile

/-- A harvested job counts as a failure when its process has exited but the
success test fails. -/
def jobFailed (fs : List String) (j : Job) : Bool :=
  match j.procStatus with
  | none => false
  | some ret => !(ret == 0 && fs.contains j.outFile)

/-- `_harvest_finished_jobs`: walk `active_jobs` in order; keep jobs whose
process is still running; for exited jobs, append the row to `serves.csv`
when exit status is zero and the output file exists, otherwise record the
failure diagnostic `(f"{serve_id:03d}", out_file)`.  Returns the remaining
in-flight list, the csv after the pass, and the failure reports. -/
def harvest_finished_jobs (fs : List String) :
    List Job → List Row → List Job × List Row × List (String × String)
  | [], csv => ([], csv, [])
  | j :: rest, csv =>
    match j.procStatus with
    | none =>
      let p := harvest_finished_jobs fs rest csv
      (j :: p.1, p.2.1, p.2.2)
    | some ret =>
      if ret == 0 && fs.contains j.outFile then
        harvest_finished_jobs fs rest
          (append_to_csv csv j.player j.serveId j.videoPath j.outFile
            j.startFrame j.endFrame j.sessionId)
      else
        let p := harvest_finished_jobs fs rest csv
        (p.1, p.2.1, (format03 j.serveId, j.outFile) :: p.2.2)

/-- A completed segment as emitted by the `'e'` key handler: the recorded
start frame, the current frame as end frame, and the serve id it was
assigned. -/
structure Segment where
  startFrame : Nat
  endFrame : Nat
  serveId : Nat
deriving DecidableEq

/-- The `'e'` key handler of `split_serves` (the Segment Marker's `mark_end`):
with an open mark `some s`, start an encode job for `(s, frame)`, advance
`serve_id` and clear the mark; with no open mark the branch guard
`start_frame is not None` fails and nothing happens.  Returns the new
`(serve_id, start_frame)` state and the list of segments emitted. -/
def stepMarkEnd (serveId : Nat) (startFrame : Option Nat) (frame : Nat) :
    (Nat × Option Nat) × List Segment :=
  match startFrame with
  | some s => ((serveId + 1, none), [⟨s, frame, serveId⟩])
  | none => ((serveId, none), [])

/-- The `'s'` key handler (the Segment Marker's `mark_start`): record the
current frame as the open mark, overwriting any previous one. -/
def stepMarkStart (serveId : Nat) (startFrame : Option Nat) (frame : Nat) :
    Nat × Option Nat :=
  let _ := startFrame
  (serveId, some frame)

/-- The `'d'` key handler: only when no mark is open (`start_frame is None`),
call `_delete_last_clip` and, when it deleted, reset `serve_id` to the
deleted id.  Returns the new `serve_id` with the directory and csv after. -/
def stepDelete (serveId : Nat) (startFrame : Option Nat) (files : List String)
    (player : String) (csv : List Row) : Nat × List String × List Row :=
  match startFrame with
  | some _ => (serveId, files, csv)
  | none =>
    let r := delete_last_clip files player csv
    match r.1.1, r.1.2.1 with
    | true, some lastId => (lastId, r.2.1, r.2.2)
    | _, _ => (serveId, r.2.1, r.2.2)

/-- `_start_encode_job`'s frame-to-time conversion: `frame / current_fps`
seconds, in exact rational arithmetic. -/
def frameToSeconds (frame : Nat) (fps : ℚ) : ℚ := (frame : ℚ) / fps

/-- The `[start_s, end_s)` range passed to ffmpeg via `-ss`/`-to` when a
segment `(startF, endF)` is submitted at frame rate `fps`. -/
def encodeRange (startF endF : Nat) (fps : ℚ) : ℚ × ℚ :=
  (frameToSeconds startF fps, frameToSeconds endF fps)

/-- `update_csv` from `landing_frame.py` (and identically `time_to_frame.py`):
set `landing_frame` to `str(landing_frame)` on every row whose `output_clip`
equals the clip path; when at least one row matched, rewrite the file with
the updated rows, otherwise report and leave the file unchanged.  Returns
the `updated` flag and the file contents after the call. -/
def update_csv (csv : List Row) (clipPath : String) (landingFrame : Nat) :
    Bool × List Row :=
  let rows := csv.map (fun row =>
    if row.output_clip == clipPath then
      { row with landing_frame := renderNat landingFrame }
    else row)
  let updated := csv.any (fun row => row.output_clip == clipPath)
  if updated then (true, rows) else (false, csv)

/- ### Helper lemmas on decimal rendering / parsing -/

theorem digitsAux_mem_lt {f n d : Nat} (h : d ∈ digitsAux f n) : d < 10 := by
  induction f generalizing n with
  | zero => simp [digitsAux] at h
  | succ f ih =>
    by_cases hn : n = 0
    · simp [digitsAux, hn] at h
    · simp only [digitsAux, if_neg hn, List.mem_cons] at h
      rcases h with h | h
      · omega
      · exact ih h

theorem digitChar_toNat {d : Nat} (h : d < 10) : (digitChar d).toNat = 48 + d := by
  interval_cases d <;> decide

theorem digitChar_isDigit {d : Nat} (h : d < 10) : (digitChar d).isDigit = true := by
  interval_cases d <;> decide

theorem foldl_digits (f : Nat) :
    ∀ n a, n ≤ f →
      ((digitsAux f n).reverse.map digitChar).foldl
          (fun x c => 10 * x + (c.toNat - 48)) a
        = a * 10 ^ (digitsAux f n).length + n := by
  induction f with
  | zero =>
    intro n a h
    have hn : n = 0 := by omega
    simp [digitsAux, hn]
  | succ f ih =>
    intro n a h
    by_cases hn : n = 0
    · simp [digitsAux, hn]
    · have hdiv : n / 10 ≤ f := by
        have : n / 10 < n := Nat.div_lt_self (by omega) (by omega)
        omega
      have hmod : (digitChar (n % 10)).toNat = 48 + n % 10 :=
        digitChar_toNat (Nat.mod_lt _ (by omega))
      simp only [digitsAux, if_neg hn, List.reverse_cons, List.map_append,
        List.map_cons, List.map_nil, List.foldl_append, List.foldl_cons,
        List.foldl_nil, List.length_cons]
      rw [ih (n / 10) a hdiv, hmod]
      have hdm : 10 * (n / 10) + n % 10 = n := Nat.div_add_mod n 10
      have hpow : 10 ^ ((digitsAux f (n / 10)).length + 1)
          = 10 ^ (digitsAux f (n / 10)).length * 10 := pow_succ 10 _
      rw [hpow, ← Nat.mul_assoc]
      omega

theorem natChars_foldl (n : Nat) :
    (natChars n).foldl (fun x c => 10 * x + (c.toNat - 48)) 0 = n := by
  by_cases hn : n = 0
  · simp [natChars, hn]
  · simpa [natChars, hn] using foldl_digits n n 0 le_rfl

theorem natChars_ne_nil (n : Nat) : natChars n ≠ [] := by
  by_cases hn : n = 0
  · simp [natChars, hn]
  · obtain ⟨m, rfl⟩ : ∃ m, n = m + 1 := ⟨n - 1, by omega⟩
    simp [natChars, digitsAux]

theorem natChars_all_digit (n : Nat) : (natChars n).all Char.isDigit = true := by
  by_cases hn : n = 0
  · simp [natChars, hn]
  · simp only [natChars, if_neg hn, List.all_eq_true]
    intro c hc
    rw [List.mem_map] at hc
    obtain ⟨d, hd, rfl⟩ := hc
    rw [List.mem_reverse] at hd
    exact digitChar_isDigit (digitsAux_mem_lt hd)

theorem foldl_zeros (k : Nat) :
    (List.replicate k '0').foldl (fun x c => 10 * x + (c.toNat - 48)) 0 = 0 := by
  induction k with
  | zero => simp
  | succ k ih => simpa [List.replicate_succ] using ih

theorem parseNat_renderNat (n : Nat) : parseNat (renderNat n) = some n := by
  have hne : (natChars n).isEmpty = false := by
    cases h : natChars n with
    | nil => exact absurd h (natChars_ne_nil n)
    | cons c t => simp [List.isEmpty]
  simp [parseNat, renderNat, hne, natChars_all_digit, natChars_foldl]

theorem parseNat_format03 (n : Nat) : parseNat (format03 n) = some n := by
  have hne : (List.replicate (3 - (natChars n).length) '0' ++ natChars n).isEmpty = false := by
    rw [List.isEmpty_eq_false_iff_exists_mem]
    cases h : natChars n with
    | nil => exact absurd h (natChars_ne_nil n)
    | cons c t => exact ⟨c, by simp [h]⟩
  have hall : (List.replicate (3 - (natChars n).length) '0' ++ natChars n).all
      Char.isDigit = true := by
    rw [List.all_eq_true]
    intro c hc
    rw [List.mem_append] at hc
    rcases hc with hc | hc
    · rw [List.eq_of_mem_replicate hc]; decide
    · have hd := natChars_all_digit n
      rw [List.all_eq_true] at hd
      exact hd c hc
  simp [parseNat, format03, hne, hall, foldl_zeros, natChars_foldl]

theorem digitsAux_length_le (f : Nat) :
    ∀ n k, n ≤ f → n < 10 ^ k → (digitsAux f n).length ≤ k := by
  induction f with
  | zero =>
    intro n k h _
    have : n = 0 := by omega
    simp [digitsAux, this]
  | succ f ih =>
    intro n k h hk
    by_cases hn : n = 0
    · simp [digitsAux, hn]
    · cases k with
      | zero => simp at hk; omega
      | succ k =>
        have hdiv : n / 10 ≤ f := by
          have : n / 10 < n := Nat.div_lt_self (by omega) (by omega)
          omega
        have hlt : n / 10 < 10 ^ k := by
          rw [Nat.div_lt_iff_lt_mul (by omega)]
          calc n < 10 ^ (k + 1) := hk
          _ = 10 ^ k * 10 := pow_succ 10 k
        simpa [digitsAux, if_neg hn] using
          Nat.succ_le_succ (ih (n / 10) k hdiv hlt)

theorem format03_length {n : Nat} (h : n < 1000) : (format03 n).length = 3 := by
  have hlen : (natChars n).length ≤ 3 := by
    by_cases hn : n = 0
    · simp [natChars, hn]
    · simpa [natChars, hn] using digitsAux_length_le n n 3 le_rfl (by omega)
  have h1 : 1 ≤ (natChars n).length := by
    cases hx : natChars n with
    | nil => exact absurd hx (natChars_ne_nil n)
    | cons c t => simp
  show (List.replicate (3 - (natChars n).length) '0' ++ natChars n).length = 3
  rw [List.length_append, List.length_replicate]
  omega

/- ### Helper lemmas on the id allocator -/

theorem parse_serve_glob {s : String} {i : Nat} (h : parse_serve s = some i) :
    glob_serve s = true := by
  unfold parse_serve at h
  split at h
  · next hc =>
    simp only [Bool.and_eq_true, beq_iff_eq] at hc
    obtain ⟨⟨⟨h6, hlen⟩, h9⟩, _⟩ := hc
    simp [glob_serve, h6, hlen, h9]
  · exact absurd h (by simp)

theorem foldl_max_eq (l : List String) :
    ∀ a, l.foldl
        (fun maxId p =>
          match parse_serve p with
          | some i => max maxId i
          | none => maxId) a
      = max a ((l.filterMap parse_serve).foldr max 0) := by
  induction l with
  | nil => intro a; simp
  | cons p t ih =>
    intro a
    cases hp : parse_serve p with
    | none => simp [List.foldl_cons, hp, ih]
    | some i =>
      simp only [List.foldl_cons, hp, ih, List.filterMap_cons, List.foldr_cons]
      exact max_assoc a i _

theorem filterMap_parse_filter_glob (files : List String) :
    (files.filter glob_serve).filterMap parse_serve
      = files.filterMap parse_serve := by
  induction files with
  | nil => rfl
  | cons p t ih =>
    cases hp : parse_serve p with
    | none =>
      by_cases hg : glob_serve p = true
      · simp [List.filter_cons, hg, List.filterMap_cons, hp, ih]
      · simp [List.filter_cons, hg, List.filterMap_cons, hp, ih]
    | some i =>
      have hg := parse_serve_glob hp
      simp [List.filter_cons, hg, List.filterMap_cons, hp, ih]

theorem next_serve_id_eq (files : List String) :
    next_serve_id files = (files.filterMap parse_serve).foldr max 0 + 1 := by
  unfold next_serve_id
  rw [foldl_max_eq, filterMap_parse_filter_glob]
  omega

theorem foldr_max_le {l : List Nat} {x : Nat} (h : x ∈ l) : x ≤ l.foldr max 0 := by
  induction l with
  | nil => simp at h
  | cons y t ih =>
    rw [List.mem_cons] at h
    rcases h with rfl | h
    · simp
    · have := ih h
      simp only [List.foldr_cons]
      omega

theorem foldr_max_mem (l : List Nat) : l.foldr max 0 = 0 ∨ l.foldr max 0 ∈ l := by
  induction l with
  | nil => simp
  | cons y t ih =>
    simp only [List.foldr_cons]
    rcases ih with h | h
    · rcases Nat.le_total y (t.foldr max 0) with hle | hle
      · left; omega
      · right; rw [Nat.max_eq_left hle]; exact List.mem_cons_self y t
    · rcases Nat.le_total y (t.foldr max 0) with hle | hle
      · right; rw [Nat.max_eq_right hle]; exact List.mem_cons_of_mem y h
      · right; rw [Nat.max_eq_left hle]; exact List.mem_cons_self y t

/- ### Helper lemmas on the delete-last scan -/

theorem scan_acc_le (l : List String) : ∀ a : Nat × Option String,
    a.1 ≤ (l.foldl scanStep a).1 := by
  induction l with
  | nil => intro a; simp
  | cons p t ih =>
    intro a
    refine le_trans ?_ (ih (scanStep a p))
    unfold scanStep
    cases parse_serve p with
    | none => exact le_rfl
    | some i =>
      dsimp only
      split
      · next hlt => dsimp only; omega
      · exact le_rfl

theorem scan_max (l : List String) : ∀ (a : Nat × Option String) (q : String)
    (j : Nat), q ∈ l → parse_serve q = some j → j ≤ (l.foldl scanStep a).1 := by
  induction l with
  | nil => intro a q j h; simp at h
  | cons p t ih =>
    intro a q j hq hj
    rw [List.mem_cons] at hq
    rcases hq with rfl | hq
    · refine le_trans ?_ (scan_acc_le t (scanStep a q))
      unfold scanStep
      rw [hj]
      dsimp only
      split <;> omega
    · exact ih (scanStep a p) q j hq hj

theorem scan_found (l : List String) : ∀ (a : Nat × Option String) (id : Nat)
    (p : String), l.foldl scanStep a = (id, some p)
    → a = (id, some p) ∨ (p ∈ l ∧ parse_serve p = some id) := by
  induction l with
  | nil =>
    intro a id p h
    rw [List.foldl_nil] at h
    exact Or.inl h
  | cons q t ih =>
    intro a id p h
    rw [List.foldl_cons] at h
    rcases ih (scanStep a q) id p h with h' | h'
    · unfold scanStep at h'
      cases hq : parse_serve q with
      | none => rw [hq] at h'; exact Or.inl h'
      | some i =>
        rw [hq] at h'
        dsimp only at h'
        by_cases hlt : a.1 < i
        · rw [if_pos hlt] at h'
          right
          obtain ⟨hi, hqp⟩ := Prod.ext_iff.mp h'
          dsimp only at hi hqp
          have hqp' : q = p := Option.some.inj hqp
          subst hqp'
          subst hi
          exact ⟨List.mem_cons_self q t, hq⟩
        · rw [if_neg hlt] at h'
          exact Or.inl h'
    · exact Or.inr ⟨List.mem_cons_of_mem q h'.1, h'.2⟩

/- ### Helper lemmas on the job harvest -/

theorem harvest_spec (fs : List String) (jobs : List Job) : ∀ csv,
    harvest_finished_jobs fs jobs csv
      = (jobs.filter (fun j => j.procStatus == none),
         csv ++ (jobs.filter (jobSuccess fs)).map rowOfJob,
         (jobs.filter (jobFailed fs)).map
           (fun j => (format03 j.serveId, j.outFile))) := by
  induction jobs with
  | nil => intro csv; simp [harvest_finished_jobs]
  | cons j rest ih =>
    intro csv
    cases hst : j.procStatus with
    | none =>
      have hs : jobSuccess fs j = false := by simp [jobSuccess, hst]
      have hf : jobFailed fs j = false := by simp [jobFailed, hst]
      simp [harvest_finished_jobs, hst, ih, List.filter_cons, hs, hf]
    | some ret =>
      by_cases hok : (ret == 0 && fs.contains j.outFile) = true
      · have hs : jobSuccess fs j = true := by
          unfold jobSuccess; rw [hst]; exact hok
        have hf : jobFailed fs j = false := by
          unfold jobFailed; rw [hst]; dsimp only; rw [hok]; rfl
        have happ : append_to_csv csv j.player j.serveId j.videoPath j.outFile
            j.startFrame j.endFrame j.sessionId = csv ++ [rowOfJob j] := rfl
        simp only [harvest_finished_jobs, hst, hok, if_true, happ, ih,
          List.filter_cons, hs, hf, if_false, Bool.false_eq_true,
          List.map_cons, List.append_assoc, List.singleton_append]
        simp
      · have hok' : (ret == 0 && fs.contains j.outFile) = false := by
          revert hok; cases (ret == 0 && fs.contains j.outFile) <;> simp
        have hs : jobSuccess fs j = false := by
          unfold jobSuccess; rw [hst]; exact hok'
        have hf : jobFailed fs j = true := by
          unfold jobFailed; rw [hst]; dsimp only; rw [hok']; rfl
        simp only [harvest_finished_jobs, hst, hok', ih, List.filter_cons, hs,
          hf, if_true, if_false, Bool.false_eq_true, List.map_cons]
        simp

/- ### Claim theorems -/

/-- C1: after a `poll()` pass (`_harvest_finished_jobs`) over any job list, a
ledger row's `output_clip` exists on disk for every row visible in the csv,
provided this held of the rows already present: the append is ordered
strictly after confirmed process success plus output-file presence, so the
pass never creates a dangling row. -/
theorem c1_no_dangling_row (fs : List String) (jobs : List Job) (csv : List Row)
    (hledger : ∀ r ∈ csv, r.output_clip ∈ fs) :
    ∀ r ∈ (harvest_finished_jobs fs jobs csv).2.1, r.output_clip ∈ fs := by
  rw [harvest_spec]
  intro r hr
  dsimp only at hr
  rw [List.mem_append] at hr
  rcases hr with hr | hr
  · exact hledger r hr
  · rw [List.mem_map] at hr
    obtain ⟨j, hj, rfl⟩ := hr
    rw [List.mem_filter] at hj
    have hsucc := hj.2
    unfold jobSuccess at hsucc
    cases hst : j.procStatus with
    | none => rw [hst] at hsucc; simp at hsucc
    | some ret =>
      rw [hst] at hsucc
      dsimp only at hsucc
      rw [Bool.and_eq_true] at hsucc
      have hc := hsucc.2
      show j.outFile ∈ fs
      simpa using hc

/-- C1 witness: a successful concrete job appends only a row whose output
clip is present on disk. -/
theorem c1_no_dangling_row_witness :
    (⟨"alice", "001", "1", "v.mp4", "serve_001.mp4", "100", "250", ""⟩ : Row).output_clip
      ∈ ["serve_001.mp4"] :=
  c1_no_dangling_row ["serve_001.mp4"]
    [⟨some 0, "alice", 1, 1, "v.mp4", "serve_001.mp4", 100, 250, 0⟩]
    [] (by simp) _ (by decide)

/-- C2: `_next_serve_id` returns 1 when no filename parses under the
`serve_(\d{3})\.mp4` pattern, returns `max + 1` where `max` is the maximum
parsed id otherwise, and ignores (is not affected by) any filename the
pattern does not parse. -/
theorem c2_next_id (files : List String) :
    (files.filterMap parse_serve = [] → next_serve_id files = 1)
    ∧ (∀ m : Nat, (files.filterMap parse_serve).maximum = (m : WithBot Nat)
        → next_serve_id files = m + 1)
    ∧ (∀ p, parse_serve p = none
        → next_serve_id (p :: files) = next_serve_id files) := by
  refine ⟨?_, ?_, ?_⟩
  · intro h
    rw [next_serve_id_eq, h]
    rfl
  · intro m hm
    replace hm := List.maximum_eq_coe_iff.mp hm
    rw [next_serve_id_eq]
    have h1 : m ≤ (files.filterMap parse_serve).foldr max 0 := foldr_max_le hm.1
    have h2 : (files.filterMap parse_serve).foldr max 0 ≤ m := by
      rcases foldr_max_mem (files.filterMap parse_serve) with h | h
      · omega
      · exact hm.2 _ h
    omega
  · intro p hp
    rw [next_serve_id_eq, next_serve_id_eq, List.filterMap_cons, hp]

/-- C2 witness: a directory with ids 1 and 3 plus a malformed name allocates
id 4. -/
theorem c2_next_id_witness :
    next_serve_id ["serve_001.mp4", "serve_003.mp4", "serve_9x.mp4"] = 3 + 1 :=
  (c2_next_id ["serve_001.mp4", "serve_003.mp4", "serve_9x.mp4"]).2.1 3 (by decide)

/-- C3: a `poll()` pass removes every job whose process has exited from the
in-flight list; success means exactly exit status 0 plus output file present;
the csv gains exactly the rows of the successful jobs (one append each, in
order) and nothing for failed jobs, which are instead reported with their
zero-padded serve id and output path, and, being removed, are never
retried. -/
theorem c3_poll_classification (fs : List String) (jobs : List Job)
    (csv : List Row) :
    (∀ j ∈ jobs, ∀ ret : Int, j.procStatus = some ret
        → j ∉ (harvest_finished_jobs fs jobs csv).1)
    ∧ (∀ j : Job, jobSuccess fs j = true
        ↔ ∃ ret : Int, j.procStatus = some ret ∧ ret = 0 ∧ j.outFile ∈ fs)
    ∧ (harvest_finished_jobs fs jobs csv).2.1
        = csv ++ (jobs.filter (jobSuccess fs)).map rowOfJob
    ∧ (harvest_finished_jobs fs jobs csv).2.2
        = (jobs.filter (jobFailed fs)).map
            (fun j => (format03 j.serveId, j.outFile)) := by
  refine ⟨?_, ?_, ?_, ?_⟩
  · intro j hj ret hret hmem
    rw [harvest_spec] at hmem
    dsimp only at hmem
    rw [List.mem_filter] at hmem
    rw [hret] at hmem
    simp at hmem
  · intro j
    unfold jobSuccess
    cases hst : j.procStatus with
    | none => simp
    | some ret => simp [Bool.and_eq_true]
  · rw [harvest_spec]
  · rw [harvest_spec]

/-- C3 witness: a concrete exited job is removed from the in-flight list by
the harvest pass. -/
theorem c3_poll_classification_witness :
    (⟨some 0, "alice", 1, 1, "v.mp4", "serve_001.mp4", 100, 250, 0⟩ : Job)
      ∉ (harvest_finished_jobs ["serve_001.mp4"]
          [⟨some 0, "alice", 1, 1, "v.mp4", "serve_001.mp4", 100, 250, 0⟩]
          []).1 :=
  (c3_poll_classification ["serve_001.mp4"]
      [⟨some 0, "alice", 1, 1, "v.mp4", "serve_001.mp4", 100, 250, 0⟩] []).1
    _ (by simp) 0 rfl

/-- C4 counterexample: the `'e'` handler has no `end > start` guard, so from
an open mark at frame 100 a `mark_end` at frame 70 (reachable after the
rewind key) emits a segment with `end_frame = 70 ≤ 100 = start_frame` and
closes the mark, contradicting the claim that no such segment is ever
emitted and that the mark would stay open. -/
theorem c4_counterexample :
    stepMarkEnd 1 (some 100) 70 = ((2, none), [⟨100, 70, 1⟩])
    ∧ (70 : Nat) ≤ 100 := by
  exact ⟨rfl, by decide⟩

/-- C4 amended: a `mark_end` on an open mark always emits the segment
`(recorded start, current frame)` and returns to idle, advancing the serve
id, with no guard on the frame order; segments with
`end_frame ≤ start_frame` can therefore be emitted. -/
theorem c4_amended_mark_end (serveId s frame : Nat) :
    stepMarkEnd serveId (some s) frame
      = ((serveId + 1, none), [⟨s, frame, serveId⟩]) := rfl

/-- C9: a `mark_end` with no open mark is a no-op: the branch guard
`start_frame is not None` fails, so no segment is emitted, no encode job is
started and the marker state is unchanged, with no error surfaced. -/
theorem c9_mark_end_idle_noop (serveId frame : Nat) :
    stepMarkEnd serveId none frame = ((serveId, none), []) := rfl

theorem length_filter_not {α : Type} (p : α → Bool) (l : List α) :
    (l.filter (fun a => !p a)).length + l.countP p = l.length := by
  induction l with
  | nil => simp
  | cons x t ih =>
    cases hx : p x with
    | true => simp [List.filter_cons, hx, List.countP_cons, ih]; omega
    | false => simp [List.filter_cons, hx, List.countP_cons, ih]; omega

/-- C5 counterexample: with clips 001 and 002 on disk and their two ledger
rows, a first `delete_last` removes clip 002 and its row — and a second
`delete_last`, with no new segments in between, is not a no-op: it deletes
clip 001 and its row as well. -/
theorem c5_counterexample :
    delete_last_clip ["serve_001.mp4", "serve_002.mp4"] "alice"
        [⟨"alice", "001", "1", "v.mp4", "serve_001.mp4", "10", "20", ""⟩,
         ⟨"alice", "002", "1", "v.mp4", "serve_002.mp4", "30", "40", ""⟩]
      = ((true, some 2, some "serve_002.mp4"), ["serve_001.mp4"],
         [⟨"alice", "001", "1", "v.mp4", "serve_001.mp4", "10", "20", ""⟩])
    ∧ delete_last_clip ["serve_001.mp4"] "alice"
        [⟨"alice", "001", "1", "v.mp4", "serve_001.mp4", "10", "20", ""⟩]
      = ((true, some 1, some "serve_001.mp4"), [], []) := by decide

/-- C5 amended: `delete_last` is accepted only while no mark is open; it
removes the backing file and the ledger row of the clip with the maximum
parsed serve id (exactly one row when the key is unique) and resets the next
allocated id to the deleted id.  A second consecutive call is *not* a no-op
while further clips remain — it deletes the next-highest clip; it is a no-op
only once no clips are left. -/
theorem c5_amended_delete_last (files : List String) (player : String)
    (csv : List Row) (lastId : Nat) (path : String)
    (hscan : (files.filter glob_serve).foldl scanStep (0, none)
      = (lastId, some path))
    (huniq : csv.countP (fun row =>
        row.player == player && row.serve_id == format03 lastId
          && row.output_clip == path) = 1) :
    delete_last_clip files player csv
      = ((true, some lastId, some path), files.erase path,
         remove_from_csv player lastId path csv)
    ∧ (files.erase path).length + 1 = files.length
    ∧ (remove_from_csv player lastId path csv).length + 1 = csv.length
    ∧ (∀ q ∈ files, ∀ j, parse_serve q = some j → j ≤ lastId)
    ∧ (∀ startId : Nat, stepDelete startId none files player csv
        = (lastId, files.erase path, remove_from_csv player lastId path csv))
    ∧ (∀ startId s : Nat, stepDelete startId (some s) files player csv
        = (startId, files, csv))
    ∧ delete_last_clip [] player csv = ((false, none, none), [], csv) := by
  have hfound := scan_found (files.filter glob_serve) (0, none) lastId path hscan
  rcases hfound with heq | ⟨hmemf, hparse⟩
  · exact absurd (Prod.ext_iff.mp heq).2 (by simp)
  have hmem : path ∈ files := List.mem_of_mem_filter hmemf
  have hglob : glob_serve path = true := List.of_mem_filter hmemf
  have hpne : path ≠ "" := by
    intro h
    subst h
    simp only [glob_serve, Bool.and_eq_true, decide_eq_true_eq] at hglob
    have := hglob.1.2
    simp at this
  have hempty : (files.filter glob_serve).isEmpty = false :=
    List.isEmpty_eq_false_iff_exists_mem.mpr ⟨path, hmemf⟩
  have hmain : delete_last_clip files player csv
      = ((true, some lastId, some path), files.erase path,
         remove_from_csv player lastId path csv) := by
    unfold delete_last_clip
    simp only [hempty, Bool.false_eq_true, if_false, hscan]
    simp [hpne, hmem]
  refine ⟨hmain, ?_, ?_, ?_, ?_, ?_, ?_⟩
  · have h1 := List.length_erase_of_mem hmem
    have h2 := List.length_pos_of_mem hmem
    omega
  · have h1 := length_filter_not (fun row =>
      row.player == player && row.serve_id == format03 lastId
        && row.output_clip == path) csv
    unfold remove_from_csv
    omega
  · intro q hq j hj
    have hqf : q ∈ files.filter glob_serve :=
      List.mem_filter.mpr ⟨hq, parse_serve_glob hj⟩
    have hle := scan_max (files.filter glob_serve) (0, none) q j hqf hj
    rw [hscan] at hle
    exact hle
  · intro startId
    unfold stepDelete
    rw [hmain]
  · intro startId s
    rfl
  · rfl

/-- C5 witness: the amended statement evaluated on the concrete two-clip
directory: the call deletes exactly clip 002 and its unique row. -/
theorem c5_amended_delete_last_witness :
    delete_last_clip ["serve_001.mp4", "serve_002.mp4"] "bob"
        [⟨"bob", "002", "1", "v.mp4", "serve_002.mp4", "30", "40", ""⟩]
      = ((true, some 2, some "serve_002.mp4"), ["serve_001.mp4"],
         remove_from_csv "bob" 2 "serve_002.mp4"
           [⟨"bob", "002", "1", "v.mp4", "serve_002.mp4", "30", "40", ""⟩]) :=
  (c5_amended_delete_last ["serve_001.mp4", "serve_002.mp4"] "bob"
    [⟨"bob", "002", "1", "v.mp4", "serve_002.mp4", "30", "40", ""⟩]
    2 "serve_002.mp4" (by decide) (by decide)).1

/-- C6: appending a committed segment to the ledger adds exactly one row,
whose `start_frame` and `end_frame` fields parse back to the original
integers and whose `serve_id` field parses back to the original id and is a
3-digit zero-padded string. -/
theorem c6_round_trip (csv : List Row) (player : String) (serveId : Nat)
    (videoPath outFile : String) (startFrame endFrame sessionId : Nat)
    (hid : serveId < 1000) :
    ∀ r : Row,
      append_to_csv csv player serveId videoPath outFile startFrame endFrame
          sessionId = csv ++ [r]
      → parseNat r.start_frame = some startFrame
        ∧ parseNat r.end_frame = some endFrame
        ∧ parseNat r.serve_id = some serveId
        ∧ r.serve_id.length = 3 := by
  intro r hr
  unfold append_to_csv at hr
  have hrow : (⟨player, format03 serveId, renderNat sessionId, videoPath,
      outFile, renderNat startFrame, renderNat endFrame, ""⟩ : Row) = r := by
    have h1 := List.append_cancel_left hr
    exact (List.cons.injEq ..).mp h1 |>.1
  rw [← hrow]
  exact ⟨parseNat_renderNat _, parseNat_renderNat _, parseNat_format03 _,
    format03_length hid⟩

/-- C6 witness: appending serve 4 with frames 100–250 yields the row
`("004", "100", "250")`, which parses back to the original integers. -/
theorem c6_round_trip_witness :
    parseNat "100" = some 100 ∧ parseNat "250" = some 250
    ∧ parseNat "004" = some 4 ∧ ("004" : String).length = 3 :=
  c6_round_trip [] "alice" 4 "v.mp4" "serve_004.mp4" 100 250 1 (by decide)
    ⟨"alice", "004", "1", "v.mp4", "serve_004.mp4", "100", "250", ""⟩
    (by decide)

/-- C7: the submitted encode job requests the time range
`[start_frame / fps, end_frame / fps)` (so multiplying back by the frame
rate recovers the frame numbers); in particular marking start=100, end=250
on a 30 fps source requests exactly `[10/3 s, 25/3 s)` in rational
arithmetic. -/
theorem c7_frame_to_time (fps : ℚ) (s e : Nat) (hfps : fps ≠ 0) :
    (encodeRange s e fps).1 * fps = (s : ℚ)
    ∧ (encodeRange s e fps).2 * fps = (e : ℚ)
    ∧ encodeRange 100 250 30 = (10 / 3, 25 / 3) := by
  refine ⟨?_, ?_, ?_⟩
  · exact div_mul_cancel₀ _ hfps
  · exact div_mul_cancel₀ _ hfps
  · have h1 : frameToSeconds 100 30 = 10 / 3 := by
      norm_num [frameToSeconds]
    have h2 : frameToSeconds 250 30 = 25 / 3 := by
      norm_num [frameToSeconds]
    unfold encodeRange
    rw [h1, h2]

/-- C7 witness: at 30 fps the start time of the marked range `[100, 250)`
multiplied back by the frame rate is frame 100. -/
theorem c7_frame_to_time_witness :
    (encodeRange 100 250 30).1 * 30 = (100 : ℚ) :=
  (c7_frame_to_time 30 100 250 (by norm_num)).1

/-- C8: a landing-frame patch whose clip path matches no row's `output_clip`
reports that no row was found (the `updated` flag is false) and leaves the
ledger file unchanged — the file is not rewritten. -/
theorem c8_patch_not_found (csv : List Row) (clipPath : String) (lf : Nat)
    (hnone : ∀ r ∈ csv, r.output_clip ≠ clipPath) :
    update_csv csv clipPath lf = (false, csv) := by
  unfold update_csv
  have hany : csv.any (fun row => row.output_clip == clipPath) = false := by
    rw [List.any_eq_false]
    intro r hr
    simp [hnone r hr]
  simp [hany]

/-- C8 witness: patching a clip path absent from a one-row ledger reports
not-found and leaves the row list unchanged. -/
theorem c8_patch_not_found_witness :
    update_csv [⟨"alice", "001", "1", "v.mp4", "serve_001.mp4", "10", "20", ""⟩]
      "other.mp4" 5
      = (false, [⟨"alice", "001", "1", "v.mp4", "serve_001.mp4", "10", "20", ""⟩]) :=
  c8_patch_not_found
    [⟨"alice", "001", "1", "v.mp4", "serve_001.mp4", "10", "20", ""⟩]
    "other.mp4" 5 (by decide)

/-- C10: a harvest pass retains exactly the jobs whose process has not yet
exited, in their original order, and removes every exited job; re-polling
the retained (still running) jobs appends nothing and reports nothing, so a
job is classified — and can append its ledger row — at most once. -/
theorem c10_harvest_retention (fs : List String) (jobs : List Job)
    (csv csv2 : List Row) :
    (harvest_finished_jobs fs jobs csv).1
        = jobs.filter (fun j => j.procStatus == none)
    ∧ harvest_finished_jobs fs
          (jobs.filter (fun j => j.procStatus == none)) csv2
        = (jobs.filter (fun j => j.procStatus == none), csv2, []) := by
  constructor
  · rw [harvest_spec]
  · rw [harvest_spec]
    have hidem : (jobs.filter (fun j => j.procStatus == none)).filter
        (fun j => j.procStatus == none)
        = jobs.filter (fun j => j.procStatus == none) :=
      List.filter_filter .. ▸ by simp [Bool.and_self]
    have hsucc : (jobs.filter (fun j => j.procStatus == none)).filter
        (jobSuccess fs) = [] := by
      rw [List.filter_eq_nil_iff]
      intro j hj
      have hst := List.of_mem_filter hj
      unfold jobSuccess
      cases h : j.procStatus with
      | none => simp
      | some ret => rw [h] at hst; simp at hst
    have hfail : (jobs.filter (fun j => j.procStatus == none)).filter
        (jobFailed fs) = [] := by
      rw [List.filter_eq_nil_iff]
      intro j hj
      have hst := List.of_mem_filter hj
      unfold jobFailed
      cases h : j.procStatus with
      | none => simp
      | some ret => rw [h] at hst; simp at hst
    rw [hidem, hsucc, hfail]
    simp

